import Mathlib

/-!
# Verification of `src/pysubs.py`

A shallow embedding, in Lean 4, of the subtitle-acquisition program
`pysubs.py`, together with theorems settling the specification claims
about it.  The embedding models:

* `generate_opensubtitles_hash` (the content fingerprinter),
* `has_external_subtitles` / `has_embedded_subtitles` (the local
  subtitle detector),
* `get_best_subtitle` (the match selector, Python's `max` with a key),
* `download_and_save_subtitle` (download-link resolution, fetch and
  the final non-atomic file write),
* the body of `main` after its precondition checks (the acquisition
  orchestrator), instrumented with an explicit trace of network calls,
* the module-level behavior of the file as written (everything from
  line 30 on, `main` and the `__main__` guard included, is indented
  inside the body of `setup_logging`, which is never called).

Machine integers are modelled as `Nat`/`Int` with explicit reduction
modulo `2 ^ 64` exactly where the Python code applies its
`& 0xFFFFFFFFFFFFFFFF` mask.
-/

namespace PySubs

/-- A video file: a byte length and the byte at each offset.  Reads in
the Python code are modelled as total lookups (the claims under study
only concern runs in which every read succeeds). -/
structure VFile where
  size : Nat
  byte : Nat → Nat

/-- The unsigned value of the 8 bytes at offset `off`, little-endian:
what `f.read(8)` produces at that position, before `struct.unpack`
interprets it. -/
def qwordU (f : VFile) (off : Nat) : Nat :=
  f.byte off
    + 256 * f.byte (off + 1)
    + 256 ^ 2 * f.byte (off + 2)
    + 256 ^ 3 * f.byte (off + 3)
    + 256 ^ 4 * f.byte (off + 4)
    + 256 ^ 5 * f.byte (off + 5)
    + 256 ^ 6 * f.byte (off + 6)
    + 256 ^ 7 * f.byte (off + 7)

/-- `struct.unpack('<q', buffer)`: the little-endian *signed* 64-bit
integer at offset `off` (two's complement reading of `qwordU`). -/
def qwordS (f : VFile) (off : Nat) : Int :=
  if qwordU f off < 2 ^ 63 then (qwordU f off : Int)
  else (qwordU f off : Int) - 2 ^ 64

/-- One loop iteration of the hash:
`hash_value += l_value; hash_value &= 0xFFFFFFFFFFFFFFFF`.
Python's `&` with the all-ones 64-bit mask on a (possibly negative)
integer is reduction modulo `2 ^ 64`, yielding a value in
`[0, 2 ^ 64)`. -/
def addQ (h : Nat) (l : Int) : Nat :=
  (((h : Int) + l) % (2 ^ 64 : Int)).toNat

/-- The hashing loop of `generate_opensubtitles_hash`: starting from
accumulator `h`, fold in `n` consecutive signed 64-bit words read from
offset `start` on. -/
def hashWords (f : VFile) : Nat → Nat → Nat → Nat
  | _, 0, h => h
  | start, n + 1, h => hashWords f (start + 8) n (addQ h (qwordS f start))

/-- The hexadecimal digit character for `n < 16` (lowercase, as
produced by Python's `"%x"`). -/
def hexDigit (n : Nat) : Char :=
  if n < 10 then Char.ofNat (48 + n) else Char.ofNat (87 + n)

/-- The last `k` hexadecimal digits of `n`, most significant first. -/
def hexDigits : Nat → Nat → List Char
  | 0, _ => []
  | k + 1, n => hexDigits k (n / 16) ++ [hexDigit (n % 16)]

/-- Python's `"%016x" % n`: `n` in lowercase hexadecimal, zero-padded
to 16 digits (for `n < 2 ^ 64` this is exact). -/
def toHex16 (n : Nat) : String :=
  String.mk (hexDigits 16 n)

/-- `generate_opensubtitles_hash` (src/pysubs.py lines 54-89), for a
run in which all reads succeed.  `65536 / 8` is Python's
`65536 // struct.calcsize('<q')`; `f.size - 65536` is `Nat`
subtraction, which agrees with the source's `max(0, filesize - 65536)`. -/
def generate_opensubtitles_hash (f : VFile) : Option String :=
  if f.size < 65536 * 2 then none
  else
    some (toHex16
      (hashWords f (f.size - 65536) (65536 / 8)
        (hashWords f 0 (65536 / 8) f.size)))

/-- The sum of `n` consecutive little-endian *signed* 64-bit integers
read from offset `start` — the spec's description of what the hashing
loop accumulates. -/
def sumQ (f : VFile) : Nat → Nat → Int
  | _, 0 => 0
  | start, n + 1 => qwordS f start + sumQ f (start + 8) n

/-- The corresponding unsigned sum, used to reason about single-byte
changes (signed and unsigned words agree modulo `2 ^ 64`). -/
def sumU (f : VFile) : Nat → Nat → Int
  | _, 0 => 0
  | start, n + 1 => (qwordU f start : Int) + sumU f (start + 8) n

/-! ## Closed form of the hashing loop -/

lemma addQ_cast (h : Nat) (l : Int) :
    ((addQ h l : Nat) : Int) = ((h : Int) + l) % 2 ^ 64 :=
  Int.toNat_of_nonneg (Int.emod_nonneg _ (by norm_num))

lemma addQ_lt (h : Nat) (l : Int) : addQ h l < 2 ^ 64 := by
  have h1 := Int.emod_lt_of_pos ((h : Int) + l) (show (0 : Int) < 2 ^ 64 by norm_num)
  have h2 : ((addQ h l : Nat) : Int) < 2 ^ 64 := by rw [addQ_cast]; exact h1
  exact_mod_cast h2

lemma emod_add_absorb (a b : Int) :
    ((a % 2 ^ 64) + b) % 2 ^ 64 = (a + b) % 2 ^ 64 := by
  conv_lhs => rw [Int.add_emod]
  rw [Int.emod_emod_of_dvd a dvd_rfl, ← Int.add_emod]

lemma sumQ_succ (f : VFile) (start n : Nat) :
    sumQ f start (n + 1) = qwordS f start + sumQ f (start + 8) n := rfl

lemma hashWords_closed0 (f : VFile) :
    ∀ (n start h : Nat), h < 2 ^ 64 →
      hashWords f start n h = (((h : Int) + sumQ f start n) % 2 ^ 64).toNat := by
  intro n
  induction n with
  | zero =>
    intro start h hh
    simp only [hashWords, sumQ, add_zero]
    rw [Int.emod_eq_of_lt (by positivity) (by exact_mod_cast hh)]
    simp
  | succ n ih =>
    intro start h hh
    simp only [hashWords]
    rw [ih (start + 8) _ (addQ_lt h _), addQ_cast, emod_add_absorb,
      sumQ_succ, add_assoc]

lemma hashWords_closed (f : VFile) (n start h : Nat) :
    hashWords f start (n + 1) h = (((h : Int) + sumQ f start (n + 1)) % 2 ^ 64).toNat := by
  simp only [hashWords]
  rw [hashWords_closed0 f n (start + 8) _ (addQ_lt h _), addQ_cast, emod_add_absorb,
    sumQ_succ, add_assoc]

/-- Closed form of `generate_opensubtitles_hash` on files of length
`≥ 131072`: the rendered value is
`(size + Σ first 8192 signed words + Σ last 8192 signed words) mod 2 ^ 64`. -/
lemma hashClosed (f : VFile) (hge : 131072 ≤ f.size) :
    generate_opensubtitles_hash f =
      some (toHex16 ((((f.size : Int) + sumQ f 0 8192
        + sumQ f (f.size - 65536) 8192) % 2 ^ 64).toNat)) := by
  have e : (65536 / 8 : Nat) = 8191 + 1 := by norm_num
  have e2 : (8191 : Nat) + 1 = 8192 := by norm_num
  unfold generate_opensubtitles_hash
  rw [if_neg (by omega), e, hashWords_closed, hashWords_closed]
  rw [Int.toNat_of_nonneg (Int.emod_nonneg _ (by norm_num)), emod_add_absorb, e2]

/-! ## Injectivity of the 16-digit hexadecimal rendering -/

/-- The numeric value of a hexadecimal digit character. -/
def hexVal (c : Char) : Nat :=
  if 97 ≤ c.toNat then c.toNat - 87 else c.toNat - 48

/-- Decode a big-endian list of hexadecimal digit characters. -/
def decodeHex (l : List Char) : Nat :=
  l.foldl (fun acc c => 16 * acc + hexVal c) 0

lemma hexVal_hexDigit : ∀ n < 16, hexVal (hexDigit n) = n := by decide

lemma decodeHex_concat (l : List Char) (c : Char) :
    decodeHex (l ++ [c]) = 16 * decodeHex l + hexVal c := by
  simp [decodeHex]

lemma decodeHex_hexDigits : ∀ (k n : Nat), decodeHex (hexDigits k n) = n % 16 ^ k := by
  intro k
  induction k with
  | zero => intro n; simp [hexDigits, decodeHex, Nat.mod_one]
  | succ k ih =>
    intro n
    simp only [hexDigits]
    rw [decodeHex_concat, ih (n / 16), hexVal_hexDigit _ (Nat.mod_lt _ (by norm_num)),
      pow_succ, mul_comm (16 ^ k) 16, Nat.mod_mul]
    ring

lemma toHex16_injOn {a b : Nat} (ha : a < 2 ^ 64) (hb : b < 2 ^ 64)
    (h : toHex16 a = toHex16 b) : a = b := by
  have hl : hexDigits 16 a = hexDigits 16 b := by
    have := congrArg String.data h
    simpa [toHex16] using this
  have := congrArg decodeHex hl
  rw [decodeHex_hexDigits, decodeHex_hexDigits] at this
  have e : (16 : Nat) ^ 16 = 2 ^ 64 := by norm_num
  rw [e, Nat.mod_eq_of_lt ha, Nat.mod_eq_of_lt hb] at this
  exact this

/-! ## Claim C1 -/

/-- **C1.**  For every video file, the fingerprint is absent when the
file length is below 131072 bytes; when the length is at least 131072
bytes (and, in this model, all reads succeed), the fingerprint equals
`(length + sum of the first 8192 little-endian signed 64-bit integers
+ sum of the 8192 little-endian signed 64-bit integers starting at
byte offset length - 65536) mod 2 ^ 64`, rendered as a 16-digit
zero-padded lowercase hexadecimal string. -/
theorem fingerprint_formula (f : VFile) :
    (f.size < 131072 → generate_opensubtitles_hash f = none) ∧
    (131072 ≤ f.size →
      generate_opensubtitles_hash f =
        some (toHex16 ((((f.size : Int) + sumQ f 0 8192
          + sumQ f (f.size - 65536) 8192) % 2 ^ 64).toNat))) :=
  ⟨fun h => by unfold generate_opensubtitles_hash; rw [if_pos (by omega)],
   fun h => hashClosed f h⟩

/-- An all-zero file of exactly 131072 bytes, and a 100-byte file. -/
def zeroFile131072 : VFile := ⟨131072, fun _ => 0⟩

def zeroFile100 : VFile := ⟨100, fun _ => 0⟩

theorem fingerprint_formula_witness :
    zeroFile100.size < 131072 ∧
    generate_opensubtitles_hash zeroFile100 = none ∧
    131072 ≤ zeroFile131072.size ∧
    generate_opensubtitles_hash zeroFile131072 =
      some (toHex16 ((((zeroFile131072.size : Int) + sumQ zeroFile131072 0 8192
        + sumQ zeroFile131072 (zeroFile131072.size - 65536) 8192) % 2 ^ 64).toNat)) :=
  ⟨by decide, (fingerprint_formula zeroFile100).1 (by decide),
   by decide, (fingerprint_formula zeroFile131072).2 (by decide)⟩

/-! ## Which bytes the hash depends on -/

lemma qwordU_congr {f g : VFile} {off : Nat}
    (h : ∀ k, k < 8 → f.byte (off + k) = g.byte (off + k)) :
    qwordU f off = qwordU g off := by
  have h0 := h 0 (by norm_num)
  rw [add_zero] at h0
  unfold qwordU
  rw [h0, h 1 (by norm_num), h 2 (by norm_num), h 3 (by norm_num), h 4 (by norm_num),
    h 5 (by norm_num), h 6 (by norm_num), h 7 (by norm_num)]

lemma qwordS_congr {f g : VFile} {off : Nat}
    (h : ∀ k, k < 8 → f.byte (off + k) = g.byte (off + k)) :
    qwordS f off = qwordS g off := by
  unfold qwordS
  rw [qwordU_congr h]

lemma sumQ_congr {f g : VFile} :
    ∀ (n start : Nat), (∀ i, start ≤ i → i < start + 8 * n → f.byte i = g.byte i) →
      sumQ f start n = sumQ g start n := by
  intro n
  induction n with
  | zero => intro start _; rfl
  | succ n ih =>
    intro start h
    rw [sumQ_succ, sumQ_succ,
      qwordS_congr (fun k hk => h (start + k) (by omega) (by omega)),
      ih (start + 8) (fun i h1 h2 => h i (by omega) (by omega))]

lemma sumU_succ (f : VFile) (start n : Nat) :
    sumU f start (n + 1) = (qwordU f start : Int) + sumU f (start + 8) n := rfl

lemma sumU_congr {f g : VFile} :
    ∀ (n start : Nat), (∀ i, start ≤ i → i < start + 8 * n → f.byte i = g.byte i) →
      sumU f start n = sumU g start n := by
  intro n
  induction n with
  | zero => intro start _; rfl
  | succ n ih =>
    intro start h
    rw [sumU_succ, sumU_succ,
      qwordU_congr (fun k hk => h (start + k) (by omega) (by omega)),
      ih (start + 8) (fun i h1 h2 => h i (by omega) (by omega))]

lemma qwordS_modEq (f : VFile) (off : Nat) :
    qwordS f off ≡ (qwordU f off : Int) [ZMOD 2 ^ 64] := by
  unfold qwordS
  split
  · rfl
  · rw [Int.modEq_iff_dvd]
    exact ⟨1, by ring⟩

lemma sumQ_modEq (f : VFile) :
    ∀ (n start : Nat), sumQ f start n ≡ sumU f start n [ZMOD 2 ^ 64] := by
  intro n
  induction n with
  | zero => intro start; rfl
  | succ n ih =>
    intro start
    rw [sumQ_succ, sumU_succ]
    exact (qwordS_modEq f start).add (ih (start + 8))

lemma qwordU_cast_sum (f : VFile) (off : Nat) :
    (qwordU f off : Int) = ∑ k ∈ Finset.range 8, (256 : Int) ^ k * (f.byte (off + k) : Int) := by
  simp only [qwordU, Finset.sum_range_succ, Finset.sum_range_zero]
  push_cast
  ring_nf

lemma qwordU_diff {f g : VFile} {off r : Nat} (hr : r < 8)
    (hag : ∀ k, k < 8 → k ≠ r → f.byte (off + k) = g.byte (off + k)) :
    (qwordU f off : Int) - qwordU g off
      = ((f.byte (off + r) : Int) - g.byte (off + r)) * 256 ^ r := by
  rw [qwordU_cast_sum, qwordU_cast_sum, ← Finset.sum_sub_distrib]
  rw [Finset.sum_eq_single r]
  · ring
  · intro k hk hne
    rw [hag k (Finset.mem_range.mp hk) hne]
    ring
  · intro hmem
    exact absurd (Finset.mem_range.mpr hr) hmem

lemma sumU_diff {f g : VFile} {p : Nat}
    (hag : ∀ i, i ≠ p → f.byte i = g.byte i) :
    ∀ (n start : Nat), start ≤ p → p < start + 8 * n →
      sumU f start n - sumU g start n
        = ((f.byte p : Int) - g.byte p) * 256 ^ ((p - start) % 8) := by
  intro n
  induction n with
  | zero => intro start h1 h2; omega
  | succ n ih =>
    intro start h1 h2
    rcases Nat.lt_or_ge p (start + 8) with hlt | hge
    · have hrest : sumU f (start + 8) n = sumU g (start + 8) n :=
        sumU_congr n (start + 8) (fun i hi _ => hag i (by omega))
      have hq := @qwordU_diff f g start (p - start) (by omega) (fun k hk hne => hag (start + k) (by omega))
      rw [show start + (p - start) = p from by omega] at hq
      rw [sumU_succ, sumU_succ, Nat.mod_eq_of_lt (by omega)]
      rw [← hq, hrest]
      ring
    · have hq : qwordU f start = qwordU g start :=
        qwordU_congr (fun k hk => hag (start + k) (by omega))
      have e : p - start = (p - (start + 8)) + 8 := by omega
      rw [sumU_succ, sumU_succ, hq, e, Nat.add_mod_right,
        ← ih (start + 8) (by omega) (by omega)]
      ring

/-- If `X ≡ Y + d` with `d` nonzero and smaller than the modulus in
absolute value, then `X` and `Y` are incongruent. -/
lemma modeq_add_small {X Y d : Int} (h : X ≡ Y + d [ZMOD 2 ^ 64])
    (hd0 : d ≠ 0) (hdlt : |d| < 2 ^ 64) : ¬ X ≡ Y [ZMOD 2 ^ 64] := by
  intro hXY
  have h2 : Y + d ≡ Y + 0 [ZMOD 2 ^ 64] := by
    simpa using h.symm.trans hXY
  have h3 : d ≡ 0 [ZMOD 2 ^ 64] := Int.ModEq.add_left_cancel (Int.ModEq.refl Y) h2
  have hdvd : (2 ^ 64 : Int) ∣ d := Int.modEq_zero_iff_dvd.mp h3
  have := Int.le_of_dvd (abs_pos.mpr hd0) ((dvd_abs _ _).mpr hdvd)
  omega

lemma emod_toNat_lt (X : Int) : (X % (2 ^ 64 : Int)).toNat < 2 ^ 64 := by
  have h1 := Int.emod_lt_of_pos X (show (0 : Int) < 2 ^ 64 by norm_num)
  have h2 := Int.emod_nonneg X (show (2 ^ 64 : Int) ≠ 0 by norm_num)
  omega

/-! ## Claim C2 -/

lemma windows_determine {f g : VFile} (hsz : f.size = g.size) (hge : 131072 ≤ f.size)
    (h1 : ∀ i, i < 65536 → f.byte i = g.byte i)
    (h2 : ∀ i, f.size - 65536 ≤ i → i < f.size → f.byte i = g.byte i) :
    generate_opensubtitles_hash f = generate_opensubtitles_hash g := by
  have e1 : sumQ f 0 8192 = sumQ g 0 8192 :=
    sumQ_congr 8192 0 (fun i _ hi => h1 i (by omega))
  have e2 : sumQ f (f.size - 65536) 8192 = sumQ g (f.size - 65536) 8192 :=
    sumQ_congr 8192 (f.size - 65536) (fun i hi1 hi2 => h2 i hi1 (by omega))
  rw [hashClosed f hge, hashClosed g (hsz ▸ hge), ← hsz, e1, e2]

lemma window_byte_change {f g : VFile} (hsz : f.size = g.size) (hge : 131072 ≤ f.size)
    (p : Nat) (hp : p < 65536 ∨ (f.size - 65536 ≤ p ∧ p < f.size))
    (hfb : f.byte p < 256) (hgb : g.byte p < 256) (hne : f.byte p ≠ g.byte p)
    (hag : ∀ i, i ≠ p → f.byte i = g.byte i) :
    generate_opensubtitles_hash f ≠ generate_opensubtitles_hash g := by
  intro hEq
  rw [hashClosed f hge, hashClosed g (hsz ▸ hge), ← hsz] at hEq
  have hTo := Option.some.inj hEq
  have hAB := toHex16_injOn (emod_toNat_lt _) (emod_toNat_lt _) hTo
  have hXY : ((f.size : Int) + sumQ f 0 8192 + sumQ f (f.size - 65536) 8192)
      ≡ ((f.size : Int) + sumQ g 0 8192 + sumQ g (f.size - 65536) 8192) [ZMOD 2 ^ 64] := by
    have c1 := Int.toNat_of_nonneg
      (Int.emod_nonneg ((f.size : Int) + sumQ f 0 8192 + sumQ f (f.size - 65536) 8192)
        (show (2 ^ 64 : Int) ≠ 0 by norm_num))
    have c2 := Int.toNat_of_nonneg
      (Int.emod_nonneg ((f.size : Int) + sumQ g 0 8192 + sumQ g (f.size - 65536) 8192)
        (show (2 ^ 64 : Int) ≠ 0 by norm_num))
    have := congrArg (fun n : Nat => (n : Int)) hAB
    simp only at this
    rw [c1, c2] at this
    exact this
  -- the two sums differ by a single nonzero word-level delta
  have hd0 : ((f.byte p : Int) - g.byte p) ≠ 0 := by
    intro h
    exact hne (by omega)
  rcases hp with hp | hp
  · have d1 := sumU_diff hag 8192 0 (by omega) (by omega)
    rw [Nat.sub_zero] at d1
    have d2 : sumU f (f.size - 65536) 8192 = sumU g (f.size - 65536) 8192 :=
      sumU_congr 8192 (f.size - 65536) (fun i hi1 _ => hag i (by omega))
    have hmod : ((f.size : Int) + sumQ f 0 8192 + sumQ f (f.size - 65536) 8192)
        ≡ ((f.size : Int) + sumQ g 0 8192 + sumQ g (f.size - 65536) 8192)
          + ((f.byte p : Int) - g.byte p) * 256 ^ (p % 8) [ZMOD 2 ^ 64] := by
      have mf := ((Int.ModEq.refl (f.size : Int)).add (sumQ_modEq f 8192 0)).add
        (sumQ_modEq f 8192 (f.size - 65536))
      have mg := ((Int.ModEq.refl (f.size : Int)).add (sumQ_modEq g 8192 0)).add
        (sumQ_modEq g 8192 (f.size - 65536))
      have hExact : (f.size : Int) + sumU f 0 8192 + sumU f (f.size - 65536) 8192
          = ((f.size : Int) + sumU g 0 8192 + sumU g (f.size - 65536) 8192)
            + ((f.byte p : Int) - g.byte p) * 256 ^ (p % 8) := by
        linear_combination d1 + d2
      have step : (f.size : Int) + sumU f 0 8192 + sumU f (f.size - 65536) 8192
          ≡ ((f.size : Int) + sumQ g 0 8192 + sumQ g (f.size - 65536) 8192)
            + ((f.byte p : Int) - g.byte p) * 256 ^ (p % 8) [ZMOD 2 ^ 64] := by
        rw [hExact]
        exact (mg.add_right _).symm
      exact mf.trans step
    exact absurd hXY (modeq_add_small hmod
      (mul_ne_zero hd0 (by positivity))
      (by
        rw [abs_mul, abs_pow]
        have hb : |(f.byte p : Int) - g.byte p| ≤ 255 := by
          rcases abs_cases ((f.byte p : Int) - g.byte p) with ⟨h1, _⟩ | ⟨h1, _⟩ <;> omega
        have hpow : |(256 : Int)| ^ (p % 8) ≤ |(256 : Int)| ^ 7 :=
          pow_le_pow_right₀ (by norm_num) (by omega)
        calc |(f.byte p : Int) - g.byte p| * |(256 : Int)| ^ (p % 8)
            ≤ 255 * |(256 : Int)| ^ 7 := by
              exact mul_le_mul hb hpow (by positivity) (by norm_num)
          _ < 2 ^ 64 := by norm_num))
  · have d1 : sumU f 0 8192 = sumU g 0 8192 :=
      sumU_congr 8192 0 (fun i _ hi => hag i (by omega))
    have d2 := sumU_diff hag 8192 (f.size - 65536) (by omega) (by omega)
    have hmod : ((f.size : Int) + sumQ f 0 8192 + sumQ f (f.size - 65536) 8192)
        ≡ ((f.size : Int) + sumQ g 0 8192 + sumQ g (f.size - 65536) 8192)
          + ((f.byte p : Int) - g.byte p) * 256 ^ ((p - (f.size - 65536)) % 8)
            [ZMOD 2 ^ 64] := by
      have mf := ((Int.ModEq.refl (f.size : Int)).add (sumQ_modEq f 8192 0)).add
        (sumQ_modEq f 8192 (f.size - 65536))
      have mg := ((Int.ModEq.refl (f.size : Int)).add (sumQ_modEq g 8192 0)).add
        (sumQ_modEq g 8192 (f.size - 65536))
      have hExact : (f.size : Int) + sumU f 0 8192 + sumU f (f.size - 65536) 8192
          = ((f.size : Int) + sumU g 0 8192 + sumU g (f.size - 65536) 8192)
            + ((f.byte p : Int) - g.byte p) * 256 ^ ((p - (f.size - 65536)) % 8) := by
        linear_combination d1 + d2
      have step : (f.size : Int) + sumU f 0 8192 + sumU f (f.size - 65536) 8192
          ≡ ((f.size : Int) + sumQ g 0 8192 + sumQ g (f.size - 65536) 8192)
            + ((f.byte p : Int) - g.byte p) * 256 ^ ((p - (f.size - 65536)) % 8)
              [ZMOD 2 ^ 64] := by
        rw [hExact]
        exact (mg.add_right _).symm
      exact mf.trans step
    exact absurd hXY (modeq_add_small hmod
      (mul_ne_zero hd0 (by positivity))
      (by
        rw [abs_mul, abs_pow]
        have hb : |(f.byte p : Int) - g.byte p| ≤ 255 := by
          rcases abs_cases ((f.byte p : Int) - g.byte p) with ⟨h1, _⟩ | ⟨h1, _⟩ <;> omega
        have hpow : |(256 : Int)| ^ ((p - (f.size - 65536)) % 8) ≤ |(256 : Int)| ^ 7 :=
          pow_le_pow_right₀ (by norm_num) (by omega)
        calc |(f.byte p : Int) - g.byte p| * |(256 : Int)| ^ ((p - (f.size - 65536)) % 8)
            ≤ 255 * |(256 : Int)| ^ 7 := by
              exact mul_le_mul hb hpow (by positivity) (by norm_num)
          _ < 2 ^ 64 := by norm_num))

/-- **C2.**  For files of identical length `≥ 131072`: the fingerprint
is a pure function of (length, first 65536 bytes, last 65536 bytes);
changing a single byte within the first or the last 65536 bytes changes
the fingerprint; for files of length `> 131072`, changing a byte
strictly between offset 65536 and offset `length - 65536` leaves the
fingerprint unchanged. -/
theorem fingerprint_window_dependence (f g : VFile)
    (hsz : f.size = g.size) (hge : 131072 ≤ f.size) :
    ((∀ i, i < 65536 → f.byte i = g.byte i) →
      (∀ i, f.size - 65536 ≤ i → i < f.size → f.byte i = g.byte i) →
      generate_opensubtitles_hash f = generate_opensubtitles_hash g) ∧
    (∀ p, (p < 65536 ∨ (f.size - 65536 ≤ p ∧ p < f.size)) →
      f.byte p < 256 → g.byte p < 256 → f.byte p ≠ g.byte p →
      (∀ i, i ≠ p → f.byte i = g.byte i) →
      generate_opensubtitles_hash f ≠ generate_opensubtitles_hash g) ∧
    (131072 < f.size →
      ∀ p, 65536 < p → p < f.size - 65536 →
      (∀ i, i ≠ p → f.byte i = g.byte i) →
      generate_opensubtitles_hash f = generate_opensubtitles_hash g) :=
  ⟨fun h1 h2 => windows_determine hsz hge h1 h2,
   fun p hp hfb hgb hne hag => window_byte_change hsz hge p hp hfb hgb hne hag,
   fun _ p hp1 hp2 hag =>
     windows_determine hsz hge
       (fun i hi => hag i (by omega))
       (fun i hi1 _ => hag i (by omega))⟩

/-- Concrete 200000-byte files: all zeros; a 9 at middle offset 70000;
a 5 at middle offset 100000.  And a 131072-byte file with a 1 at
offset 0. -/
def zeroFile200000 : VFile := ⟨200000, fun _ => 0⟩

def midFile200000 : VFile := ⟨200000, fun i => if i = 70000 then 9 else 0⟩

def midFile200000b : VFile := ⟨200000, fun i => if i = 100000 then 5 else 0⟩

def oneFile131072 : VFile := ⟨131072, fun i => if i = 0 then 1 else 0⟩

theorem fingerprint_window_dependence_witness :
    generate_opensubtitles_hash zeroFile200000 = generate_opensubtitles_hash midFile200000 ∧
    generate_opensubtitles_hash zeroFile131072 ≠ generate_opensubtitles_hash oneFile131072 ∧
    generate_opensubtitles_hash zeroFile200000 = generate_opensubtitles_hash midFile200000b :=
  ⟨(fingerprint_window_dependence zeroFile200000 midFile200000 rfl (by decide)).1
      (fun i hi => by
        show (0 : Nat) = if i = 70000 then 9 else 0
        rw [if_neg (by omega)])
      (fun i hi1 hi2 => by
        show (0 : Nat) = if i = 70000 then 9 else 0
        have hb : 134464 ≤ i := hi1
        rw [if_neg (by omega)]),
   (fingerprint_window_dependence zeroFile131072 oneFile131072 rfl (by decide)).2.1
      0 (Or.inl (by decide)) (by decide) (by decide) (by decide)
      (fun i hi => by
        show (0 : Nat) = if i = 0 then 1 else 0
        rw [if_neg hi]),
   (fingerprint_window_dependence zeroFile200000 midFile200000b rfl (by decide)).2.2
      (by decide) 100000 (by decide) (by decide)
      (fun i hi => by
        show (0 : Nat) = if i = 100000 then 5 else 0
        rw [if_neg hi])⟩

/-! ## Subtitle records and the match selector -/

/-- One entry of a record's `attributes.files` array; `file_id` is
`none` when the JSON object has no `file_id` key. -/
structure FileDesc where
  file_id : Option Nat
deriving DecidableEq

/-- A record's `attributes` object; each field is `none` when the
key is absent from the JSON. -/
structure SubAttributes where
  download_count : Option Int
  files : Option (List FileDesc)
deriving DecidableEq

/-- A subtitle record from the catalog's `data` array; `attributes`
is `none` when the record has no `attributes` object at all. -/
structure SubRecord where
  attributes : Option SubAttributes
deriving DecidableEq

/-- The selection key of `get_best_subtitle`:
`s.get("attributes", {}).get("download_count", 0)`. -/
def downloadCount (s : SubRecord) : Int :=
  match s.attributes with
  | none => 0
  | some a => a.download_count.getD 0

/-- Python's `max(iterable, key=k)`: scan left to right, replacing the
current best only when the key is strictly larger. -/
def pyMaxKey (key : SubRecord → Int) : SubRecord → List SubRecord → SubRecord
  | best, [] => best
  | best, x :: xs => pyMaxKey key (if key best < key x then x else best) xs

/-- `get_best_subtitle` (src/pysubs.py lines 105-110). -/
def get_best_subtitle (subtitles : List SubRecord) : Option SubRecord :=
  match subtitles with
  | [] => none
  | x :: xs => some (pyMaxKey downloadCount x xs)

lemma pyMaxKey_spec (key : SubRecord → Int) :
    ∀ (ys : List SubRecord) (b : SubRecord),
      (pyMaxKey key b ys = b ∧ ∀ y ∈ ys, key y ≤ key b) ∨
      (∃ l₁ l₂, ys = l₁ ++ pyMaxKey key b ys :: l₂ ∧
        key b < key (pyMaxKey key b ys) ∧
        (∀ y ∈ ys, key y ≤ key (pyMaxKey key b ys)) ∧
        (∀ y ∈ l₁, key y < key (pyMaxKey key b ys))) := by
  intro ys
  induction ys with
  | nil => intro b; exact Or.inl ⟨rfl, by simp⟩
  | cons y ys ih =>
    intro b
    show (pyMaxKey key (if key b < key y then y else b) ys = b ∧ _) ∨ _
    rcases ih (if key b < key y then y else b) with ⟨hm, hall⟩ | ⟨l₁, l₂, hsplit, hgt, hall, hpre⟩
    · by_cases hby : key b < key y
      · rw [if_pos hby] at hm hall
        refine Or.inr ⟨[], ys, ?_, ?_, ?_, by simp⟩
        · show y :: ys = [] ++ pyMaxKey key (if key b < key y then y else b) ys :: ys
          rw [if_pos hby, hm]
          rfl
        · show key b < key (pyMaxKey key (if key b < key y then y else b) ys)
          rw [if_pos hby, hm]
          exact hby
        · intro z hz
          show key z ≤ key (pyMaxKey key (if key b < key y then y else b) ys)
          rw [if_pos hby, hm]
          rcases List.mem_cons.mp hz with h | h
          · exact h ▸ le_refl _
          · exact hall z h
      · rw [if_neg hby] at hm hall
        refine Or.inl ⟨?_, ?_⟩
        · rw [if_neg hby]
          exact hm
        · intro z hz
          rcases List.mem_cons.mp hz with h | h
          · rw [h]; omega
          · exact hall z h
    · by_cases hby : key b < key y
      · rw [if_pos hby] at hsplit hgt hall hpre
        refine Or.inr ⟨y :: l₁, l₂, ?_, ?_, ?_, ?_⟩
        · show y :: ys = (y :: l₁) ++ pyMaxKey key (if key b < key y then y else b) ys :: l₂
          rw [if_pos hby]
          rw [List.cons_append, ← hsplit]
        · show key b < key (pyMaxKey key (if key b < key y then y else b) ys)
          rw [if_pos hby]
          omega
        · intro z hz
          show key z ≤ key (pyMaxKey key (if key b < key y then y else b) ys)
          rw [if_pos hby]
          rcases List.mem_cons.mp hz with h | h
          · rw [h]; omega
          · exact hall z h
        · intro z hz
          show key z < key (pyMaxKey key (if key b < key y then y else b) ys)
          rw [if_pos hby]
          rcases List.mem_cons.mp hz with h | h
          · rw [h]; exact hgt
          · exact hpre z h
      · rw [if_neg hby] at hsplit hgt hall hpre
        refine Or.inr ⟨y :: l₁, l₂, ?_, ?_, ?_, ?_⟩
        · show y :: ys = (y :: l₁) ++ pyMaxKey key (if key b < key y then y else b) ys :: l₂
          rw [if_neg hby]
          rw [List.cons_append, ← hsplit]
        · show key b < key (pyMaxKey key (if key b < key y then y else b) ys)
          rw [if_neg hby]
          exact hgt
        · intro z hz
          show key z ≤ key (pyMaxKey key (if key b < key y then y else b) ys)
          rw [if_neg hby]
          rcases List.mem_cons.mp hz with h | h
          · rw [h]; omega
          · exact hall z h
        · intro z hz
          show key z < key (pyMaxKey key (if key b < key y then y else b) ys)
          rw [if_neg hby]
          rcases List.mem_cons.mp hz with h | h
          · rw [h]; omega
          · exact hpre z h

lemma get_best_subtitle_none_iff (l : List SubRecord) :
    get_best_subtitle l = none ↔ l = [] := by
  cases l with
  | nil => simp [get_best_subtitle]
  | cons x xs => simp [get_best_subtitle]

/-- On a nonempty list, `get_best_subtitle` returns the first record,
in input order, whose download count is maximal. -/
lemma get_best_subtitle_first_max (x : SubRecord) (xs : List SubRecord) :
    ∃ r l₁ l₂, get_best_subtitle (x :: xs) = some r ∧
      x :: xs = l₁ ++ r :: l₂ ∧
      (∀ y ∈ x :: xs, downloadCount y ≤ downloadCount r) ∧
      (∀ y ∈ l₁, downloadCount y < downloadCount r) := by
  rcases pyMaxKey_spec downloadCount xs x with ⟨hm, hall⟩ | ⟨l₁, l₂, hsplit, hgt, hall, hpre⟩
  · refine ⟨pyMaxKey downloadCount x xs, [], xs, rfl, ?_, ?_, by simp⟩
    · rw [hm]; rfl
    · intro y hy
      rcases List.mem_cons.mp hy with h | h
      · rw [h, hm]
      · rw [hm]; exact hall y h
  · refine ⟨pyMaxKey downloadCount x xs, x :: l₁, l₂, rfl, ?_, ?_, ?_⟩
    · rw [List.cons_append, ← hsplit]
    · intro y hy
      rcases List.mem_cons.mp hy with h | h
      · rw [h]; omega
      · exact hall y h
    · intro y hy
      rcases List.mem_cons.mp hy with h | h
      · rw [h]; exact hgt
      · exact hpre y h

/-! ## Claim C3 -/

/-- **C3.**  `get_best_subtitle` returns `none` exactly on the empty
list; on a nonempty list it returns the first record, in input order,
whose download count (a missing count reads as 0) is maximal: the
result `r` splits the input as `l₁ ++ r :: l₂` with every record's
count `≤` that of `r` and every count in the prefix `l₁` strictly
below it.  In particular, on counts `[3, 7, 7, 1]` it returns the
first record with count 7. -/
theorem select_best_spec :
    (∀ l : List SubRecord, get_best_subtitle l = none ↔ l = []) ∧
    (∀ (x : SubRecord) (xs : List SubRecord),
      ∃ r l₁ l₂, get_best_subtitle (x :: xs) = some r ∧
        x :: xs = l₁ ++ r :: l₂ ∧
        (∀ y ∈ x :: xs, downloadCount y ≤ downloadCount r) ∧
        (∀ y ∈ l₁, downloadCount y < downloadCount r)) ∧
    (∀ r0 r1 r2 r3 : SubRecord,
      downloadCount r0 = 3 → downloadCount r1 = 7 →
      downloadCount r2 = 7 → downloadCount r3 = 1 →
      get_best_subtitle [r0, r1, r2, r3] = some r1) :=
  ⟨get_best_subtitle_none_iff,
   get_best_subtitle_first_max,
   fun r0 r1 r2 r3 h0 h1 h2 h3 => by
     norm_num [get_best_subtitle, pyMaxKey, h0, h1, h2, h3]⟩

/-- Concrete records with download counts 3, 7, 7, 1. -/
def recCount3 : SubRecord := ⟨some ⟨some 3, none⟩⟩

def recCount7a : SubRecord := ⟨some ⟨some 7, none⟩⟩

def recCount7b : SubRecord := ⟨some ⟨some 7, none⟩⟩

def recCount1 : SubRecord := ⟨some ⟨some 1, none⟩⟩

theorem select_best_spec_witness :
    get_best_subtitle [] = none ∧
    get_best_subtitle [recCount3, recCount7a, recCount7b, recCount1] = some recCount7a :=
  ⟨(select_best_spec.1 []).mpr rfl,
   select_best_spec.2.2 recCount3 recCount7a recCount7b recCount1 rfl rfl rfl rfl⟩

/-! ## Claim C10 -/

/-- **C10.**  `get_best_subtitle` is total and never fails on
structurally incomplete records: a record lacking the whole
`attributes` object reads as download count 0 and participates in
selection like any other record — it loses to any record with a
positive count and is itself returned when it is the only (hence
first maximal) candidate. -/
theorem select_best_total_incomplete (r : SubRecord) (hr : r.attributes = none) :
    downloadCount r = 0 ∧
    (∀ l : List SubRecord, get_best_subtitle l = none ↔ l = []) ∧
    (∀ s : SubRecord, 0 < downloadCount s → get_best_subtitle [r, s] = some s) ∧
    get_best_subtitle [r] = some r := by
  have hc : downloadCount r = 0 := by
    unfold downloadCount
    rw [hr]
  refine ⟨hc, get_best_subtitle_none_iff, ?_, rfl⟩
  intro s hs
  simp only [get_best_subtitle, pyMaxKey, hc]
  rw [if_pos hs]

/-- A record with no `attributes` object at all, and one with
download count 5. -/
def recNoAttrs : SubRecord := ⟨none⟩

def recCount5 : SubRecord := ⟨some ⟨some 5, none⟩⟩

theorem select_best_total_incomplete_witness :
    downloadCount recNoAttrs = 0 ∧
    get_best_subtitle [recNoAttrs, recCount5] = some recCount5 ∧
    get_best_subtitle [recNoAttrs] = some recNoAttrs :=
  ⟨(select_best_total_incomplete recNoAttrs rfl).1,
   (select_best_total_incomplete recNoAttrs rfl).2.2.1 recCount5 (by decide),
   (select_best_total_incomplete recNoAttrs rfl).2.2.2⟩

/-! ## Local subtitle detector -/

/-- `has_external_subtitles` (src/pysubs.py lines 30-38): for each
extension in `[".srt", ".sub"]`, in order, test whether the sibling
file exists, returning on the first hit.  `isfile` abstracts
`os.path.isfile`; `base` is `os.path.splitext(video_path)[0]`. -/
def has_external_subtitles (isfile : String → Bool) (base : String) : Bool :=
  [".srt", ".sub"].any (fun ext => isfile (base ++ ext))

/-- One stream descriptor from the probe's JSON. -/
structure StreamDesc where
  codec_type : Option String
deriving DecidableEq

/-- The outcome of `ffmpeg.probe`: a stream list, an `ffmpeg.Error`
(ffprobe ran and exited nonzero), or any other exception — notably
`FileNotFoundError` from `subprocess.Popen` when the `ffprobe`
executable is absent from the PATH. -/
inductive ProbeResult
  | ok (streams : List StreamDesc)
  | ffmpegError
  | otherError (exc : String)
deriving DecidableEq

/-- `has_embedded_subtitles` (src/pysubs.py lines 41-51).  The
`try/except` catches only `ffmpeg.Error`; every other exception
propagates out of the function, modelled as `Except.error`. -/
def has_embedded_subtitles : ProbeResult → Except String Bool
  | .ok streams =>
      .ok (!(streams.filter (fun s => s.codec_type == some "subtitle")).isEmpty)
  | .ffmpegError => .ok false
  | .otherError exc => .error exc

/-! ## Claim C5 -/

/-- **C5.**  The claim says every possible probe failure — the probing
tool being absent included — yields `false` and cannot crash the run.
The code catches only `ffmpeg.Error`.  When `ffprobe` is absent,
`ffmpeg.probe`'s `subprocess.Popen` raises `FileNotFoundError`, which
is not an `ffmpeg.Error`: it escapes `has_embedded_subtitles`
uncaught (and, from `main`, crashes the run).  Only the
`ffmpeg.Error` path returns `false`. -/
theorem embedded_probe_tool_missing_escapes :
    has_embedded_subtitles (.otherError "FileNotFoundError")
        = .error "FileNotFoundError" ∧
    has_embedded_subtitles (.otherError "FileNotFoundError") ≠ .ok false ∧
    has_embedded_subtitles .ffmpegError = .ok false := by
  refine ⟨rfl, ?_, rfl⟩
  intro h
  exact Except.noConfusion h

/-! ## Download, save, and the network-call trace -/

/-- A network request issued during a run: the hash search, the
filename search (each carrying its `languages` criterion), the
download-link resolution `POST`, and the content fetch `GET`. -/
inductive NetCall
  | searchByHash (moviehash : String) (languages : String)
  | searchByName (query : String) (languages : String)
  | resolveReq (file_id : Nat)
  | fetchReq (link : String)
deriving DecidableEq

/-- Outcome of the final `f.write(sub_content)`: the write either
completes, or an I/O error interrupts it after `n` characters have
reached the disk.  `open(path, "w")` itself truncates the target, so
the interrupted state of the file is a prefix of the new content —
never the pre-existing content. -/
inductive WriteOutcome
  | success
  | failAfter (n : Nat)
deriving DecidableEq

/-- How the download phase ended. -/
inductive DLStatus
  | invalidFileId
  | resolveError
  | fetchError
  | writeError
  | saved
deriving DecidableEq

/-- The spec's terminal state of the download phase:
`DONE_DOWNLOADED` only on a completed save, `DONE_ERROR` otherwise. -/
def dlTerminal : DLStatus → String
  | .saved => "DONE_DOWNLOADED"
  | _ => "DONE_ERROR"

/-- `subtitle_data.get("attributes", {}).get("files")`. -/
def getFiles (s : SubRecord) : Option (List FileDesc) :=
  match s.attributes with
  | none => none
  | some a => a.files

/-- `download_and_save_subtitle` (src/pysubs.py lines 113-153).

Arguments: the selected record, the catalog's two remote operations
(`resolve` is `POST {API_URL}/download`, returning the `link` field,
`none` on transport error or a missing field; `fetch` is the `GET` of
the link, `none` on transport error), the outcome of the final write,
and the pre-existing content at `<video base>.srt` (`none` if the file
does not exist).

Returns the phase status, the resulting content at
`<video base>.srt`, and the network calls issued, in order. -/
def download_and_save_subtitle (sub : SubRecord)
    (resolve : Nat → Option String) (fetch : String → Option String)
    (w : WriteOutcome) (pre : Option String) :
    DLStatus × Option String × List NetCall :=
  match getFiles sub with
  | none => (.invalidFileId, pre, [])
  | some [] => (.invalidFileId, pre, [])
  | some (f0 :: _) =>
    match f0.file_id with
    | none => (.invalidFileId, pre, [])
    | some fid =>
      match resolve fid with
      | none => (.resolveError, pre, [.resolveReq fid])
      | some link =>
        match fetch link with
        | none => (.fetchError, pre, [.resolveReq fid, .fetchReq link])
        | some content =>
          match w with
          | .success => (.saved, some content, [.resolveReq fid, .fetchReq link])
          | .failAfter n =>
              (.writeError, some (content.take n), [.resolveReq fid, .fetchReq link])

/-! ## The orchestrator: the body of `main` after its preconditions -/

/-- Everything the body of `main` (src/pysubs.py lines 175-212)
consumes: the filesystem existence test, the two strings derived from
the video path by `os.path.splitext`/`os.path.basename`, the video
file's bytes, the probe outcome, the catalog's reply to each of the
two possible searches (`search_subtitles` already converts transport
errors into `[]`), the two remote download operations, the write
outcome, and the pre-existing content at `<video base>.srt`. -/
structure Env where
  isfile : String → Bool
  videoBase : String
  queryName : String
  vfile : VFile
  probe : ProbeResult
  searchHash : List SubRecord
  searchName : List SubRecord
  resolve : Nat → Option String
  fetch : String → Option String
  write : WriteOutcome
  pre : Option String

/-- Terminal states of one orchestration run.  `crashed` models an
uncaught exception escaping `main`. -/
inductive Terminal
  | skipped
  | notFound
  | downloaded
  | error
  | crashed
deriving DecidableEq

/-- Map the download-phase status to the run's terminal state. -/
def dlTerminalState : DLStatus → Terminal
  | .saved => .downloaded
  | _ => .error

/-- The hash-search stage (lines 184-193): if the fingerprint exists,
issue the hash search and select from its results (`if results:`
guards the selection, and `get_best_subtitle` of `[]` is `none`
anyway). -/
def hashPhase (env : Env) : List NetCall × Option SubRecord :=
  match generate_opensubtitles_hash env.vfile with
  | none => ([], none)
  | some h =>
    ([NetCall.searchByHash h "en"],
     if env.searchHash.isEmpty then none else get_best_subtitle env.searchHash)

/-- The filename-search stage (lines 196-203). -/
def namePhase (env : Env) : List NetCall × Option SubRecord :=
  ([NetCall.searchByName env.queryName "en"],
   if env.searchName.isEmpty then none else get_best_subtitle env.searchName)

/-- The body of `main` from line 175 on (after the credential and
file-existence preconditions): local-subtitle check, hash search,
filename fallback, selection, download and save.  Returns the
terminal state, the final content at `<video base>.srt`, and the
network calls issued, in order. -/
def main_core (env : Env) : Terminal × Option String × List NetCall :=
  if has_external_subtitles env.isfile env.videoBase then (.skipped, env.pre, [])
  else
    match has_embedded_subtitles env.probe with
    | .error _ => (.crashed, env.pre, [])
    | .ok true => (.skipped, env.pre, [])
    | .ok false =>
      let hp := hashPhase env
      let np := if hp.2.isSome then ([], hp.2) else namePhase env
      match np.2 with
      | none => (.notFound, env.pre, hp.1 ++ np.1)
      | some sub =>
        let d := download_and_save_subtitle sub env.resolve env.fetch env.write env.pre
        (dlTerminalState d.1, d.2.1, hp.1 ++ np.1 ++ d.2.2)

/-! ## Claim C4 -/

/-- A record whose `attributes.files` holds one descriptor with
`file_id = 42`, and one with a second descriptor after it. -/
def recOneFile : SubRecord := ⟨some ⟨some 1, some [⟨some 42⟩]⟩⟩

def recTwoFiles : SubRecord := ⟨some ⟨some 1, some [⟨some 42⟩, ⟨some 99⟩]⟩⟩

def resolveToL : Nat → Option String := fun _ => some "L"

def fetchHello : String → Option String := fun _ => some "hello"

def resolveNone : Nat → Option String := fun _ => none

/-- **C4 is false on the code** (counterexample): with fetched content
`"hello"`, a pre-existing file `"old"` and an I/O error after 2
characters of the final write, the content on disk afterwards is
neither the complete fetched text nor the untouched pre-existing file
(nor absent): `open(path, "w")` truncates and `f.write` is not
atomic, so a partial file remains. -/
theorem save_atomicity_counterexample :
    ¬ ((download_and_save_subtitle recOneFile resolveToL fetchHello
          (.failAfter 2) (some "old")).2.1 = some "hello" ∨
       (download_and_save_subtitle recOneFile resolveToL fetchHello
          (.failAfter 2) (some "old")).2.1 = some "old" ∨
       (download_and_save_subtitle recOneFile resolveToL fetchHello
          (.failAfter 2) (some "old")).2.1 = none) := by
  decide

/-- **C4 amended.**  On a successful run the complete fetched text
lands at `<video base>.srt`, overwriting any pre-existing file, and
the download phase ends in `DONE_DOWNLOADED`; but the write is not
atomic: an I/O error during the final write ends the phase in
`DONE_ERROR` leaving a truncated partial file — a proper prefix of
the new content — on disk (the pre-existing content does not
survive, because `open(path, "w")` truncates before writing). -/
theorem save_complete_or_truncated (sub : SubRecord) (resolve : Nat → Option String)
    (fetch : String → Option String) (pre : Option String)
    (f0 : FileDesc) (rest : List FileDesc) (fid : Nat) (link content : String)
    (hf : getFiles sub = some (f0 :: rest)) (hid : f0.file_id = some fid)
    (hres : resolve fid = some link) (hfetch : fetch link = some content) :
    download_and_save_subtitle sub resolve fetch .success pre
        = (.saved, some content, [.resolveReq fid, .fetchReq link]) ∧
    (∀ n, download_and_save_subtitle sub resolve fetch (.failAfter n) pre
        = (.writeError, some (content.take n), [.resolveReq fid, .fetchReq link])) ∧
    dlTerminalState .saved = .downloaded ∧
    dlTerminalState .writeError = .error := by
  refine ⟨?_, fun n => ?_, rfl, rfl⟩ <;>
    simp [download_and_save_subtitle, hf, hid, hres, hfetch]

theorem save_complete_or_truncated_witness :
    download_and_save_subtitle recOneFile resolveToL fetchHello .success (some "old")
        = (.saved, some "hello", [.resolveReq 42, .fetchReq "L"]) ∧
    download_and_save_subtitle recOneFile resolveToL fetchHello (.failAfter 2) (some "old")
        = (.writeError, some (String.take "hello" 2), [.resolveReq 42, .fetchReq "L"]) :=
  ⟨(save_complete_or_truncated recOneFile resolveToL fetchHello (some "old")
      ⟨some 42⟩ [] 42 "L" "hello" rfl rfl rfl rfl).1,
   (save_complete_or_truncated recOneFile resolveToL fetchHello (some "old")
      ⟨some 42⟩ [] 42 "L" "hello" rfl rfl rfl rfl).2.1 2⟩

/-! ## Claim C6 -/

/-- **C6.**  When a sibling `.srt` or `.sub` file exists, the run
terminates in the skipped state with an empty network-call trace (no
search, no resolution, no fetch) and the target file untouched. -/
theorem local_subtitle_skips_network (env : Env)
    (h : env.isfile (env.videoBase ++ ".srt") = true ∨
         env.isfile (env.videoBase ++ ".sub") = true) :
    main_core env = (.skipped, env.pre, []) := by
  have hx : has_external_subtitles env.isfile env.videoBase = true := by
    rcases h with h | h <;> simp [has_external_subtitles, h]
  simp [main_core, hx]

/-- An environment whose filesystem contains every path. -/
def envSkip : Env :=
  ⟨fun _ => true, "/v/movie", "movie", zeroFile100, .ffmpegError, [], [],
   fun _ => none, fun _ => none, .success, none⟩

theorem local_subtitle_skips_network_witness :
    main_core envSkip = (.skipped, none, []) :=
  local_subtitle_skips_network envSkip (Or.inl rfl)

/-! ## Claim C7 -/

/-- **C7.**  When the fingerprint is absent or the hash search came
back empty, the orchestrator issues a filename search with criteria
`{base filename without extension, "en"}`; if it yields no record the
run terminates not-found, otherwise the run proceeds to download with
the record selected from the filename-search results. -/
theorem name_search_fallback (env : Env)
    (hext : has_external_subtitles env.isfile env.videoBase = false)
    (hemb : has_embedded_subtitles env.probe = .ok false)
    (hh : generate_opensubtitles_hash env.vfile = none ∨ env.searchHash = []) :
    (env.searchName = [] →
      main_core env = (.notFound, env.pre,
        (hashPhase env).1 ++ [.searchByName env.queryName "en"])) ∧
    (∀ sub, get_best_subtitle env.searchName = some sub →
      main_core env =
        (dlTerminalState
            (download_and_save_subtitle sub env.resolve env.fetch env.write env.pre).1,
         (download_and_save_subtitle sub env.resolve env.fetch env.write env.pre).2.1,
         (hashPhase env).1 ++ [.searchByName env.queryName "en"]
           ++ (download_and_save_subtitle sub env.resolve env.fetch env.write env.pre).2.2)) := by
  have hp2 : (hashPhase env).2 = none := by
    rcases hh with hh | hh
    · simp [hashPhase, hh]
    · unfold hashPhase
      cases hgen : generate_opensubtitles_hash env.vfile with
      | none => rfl
      | some h => simp [hh]
  constructor
  · intro hempty
    simp [main_core, hext, hemb, hp2, namePhase, hempty]
  · intro sub hsub
    have hne : env.searchName ≠ [] := by
      intro he
      rw [he] at hsub
      simp [get_best_subtitle] at hsub
    have hie : env.searchName.isEmpty = false := by
      simpa [List.isEmpty_iff] using hne
    simp [main_core, hext, hemb, hp2, namePhase, hie, hsub]

/-- Environments with no local subtitles, a too-small video file (so
the fingerprint is absent), and a filename search returning nothing
resp. one record with download count 5. -/
def envName0 : Env :=
  ⟨fun _ => false, "/v/movie", "movie", zeroFile100, .ok [], [], [],
   fun _ => none, fun _ => none, .success, none⟩

def envName1 : Env :=
  ⟨fun _ => false, "/v/movie", "movie", zeroFile100, .ok [], [], [recCount5],
   fun _ => none, fun _ => none, .success, none⟩

theorem name_search_fallback_witness :
    main_core envName0 = (.notFound, none,
      (hashPhase envName0).1 ++ [.searchByName "movie" "en"]) ∧
    main_core envName1 =
      (dlTerminalState
          (download_and_save_subtitle recCount5 envName1.resolve envName1.fetch
            envName1.write envName1.pre).1,
       (download_and_save_subtitle recCount5 envName1.resolve envName1.fetch
          envName1.write envName1.pre).2.1,
       (hashPhase envName1).1 ++ [.searchByName "movie" "en"]
         ++ (download_and_save_subtitle recCount5 envName1.resolve envName1.fetch
              envName1.write envName1.pre).2.2) :=
  ⟨(name_search_fallback envName0 rfl rfl (Or.inl (by decide))).1 rfl,
   (name_search_fallback envName1 rfl rfl (Or.inl (by decide))).2 recCount5 rfl⟩

/-! ## Claim C8 -/

/-- **C8.**  Download-link resolution is attempted only with the
`file_id` of the *first* descriptor of the selected record's file
list: every `resolveReq` in the trace carries that identifier, and
the result is unchanged by the descriptors after the first.  When the
record has no usable file descriptor, or resolution returns absent,
the phase ends in `DONE_ERROR` with the target file untouched (its
content stays exactly `pre`) and nothing written. -/
theorem download_uses_first_descriptor_only (sub : SubRecord)
    (resolve : Nat → Option String) (fetch : String → Option String)
    (w : WriteOutcome) (pre : Option String) :
    ((getFiles sub = none ∨ getFiles sub = some [] ∨
        (∃ f0 rest, getFiles sub = some (f0 :: rest) ∧ f0.file_id = none)) →
      download_and_save_subtitle sub resolve fetch w pre = (.invalidFileId, pre, []) ∧
      dlTerminalState (download_and_save_subtitle sub resolve fetch w pre).1 = .error) ∧
    (∀ f0 rest fid, getFiles sub = some (f0 :: rest) → f0.file_id = some fid →
      resolve fid = none →
      download_and_save_subtitle sub resolve fetch w pre
          = (.resolveError, pre, [.resolveReq fid]) ∧
      dlTerminalState (download_and_save_subtitle sub resolve fetch w pre).1 = .error) ∧
    (∀ fid, NetCall.resolveReq fid ∈ (download_and_save_subtitle sub resolve fetch w pre).2.2 →
      ∃ f0 rest, getFiles sub = some (f0 :: rest) ∧ f0.file_id = some fid) ∧
    (∀ (sub' : SubRecord) (f0 : FileDesc) (rest rest' : List FileDesc),
      getFiles sub = some (f0 :: rest) → getFiles sub' = some (f0 :: rest') →
      download_and_save_subtitle sub resolve fetch w pre
        = download_and_save_subtitle sub' resolve fetch w pre) := by
  refine ⟨?_, ?_, ?_, ?_⟩
  · rintro (h | h | ⟨f0, rest, h, hid⟩)
    · have he : download_and_save_subtitle sub resolve fetch w pre
          = (.invalidFileId, pre, []) := by simp [download_and_save_subtitle, h]
      exact ⟨he, by rw [he]; rfl⟩
    · have he : download_and_save_subtitle sub resolve fetch w pre
          = (.invalidFileId, pre, []) := by simp [download_and_save_subtitle, h]
      exact ⟨he, by rw [he]; rfl⟩
    · have he : download_and_save_subtitle sub resolve fetch w pre
          = (.invalidFileId, pre, []) := by simp [download_and_save_subtitle, h, hid]
      exact ⟨he, by rw [he]; rfl⟩
  · intro f0 rest fid hf hid hres
    have he : download_and_save_subtitle sub resolve fetch w pre
        = (.resolveError, pre, [.resolveReq fid]) := by
      simp [download_and_save_subtitle, hf, hid, hres]
    exact ⟨he, by rw [he]; rfl⟩
  · intro fid hmem
    rcases hgf : getFiles sub with _ | fl
    · simp [download_and_save_subtitle, hgf] at hmem
    · rcases fl with _ | ⟨f0, rest⟩
      · simp [download_and_save_subtitle, hgf] at hmem
      · rcases hid : f0.file_id with _ | fid0
        · simp [download_and_save_subtitle, hgf, hid] at hmem
        · refine ⟨f0, rest, rfl, ?_⟩
          rcases hres : resolve fid0 with _ | link
          · simp [download_and_save_subtitle, hgf, hid, hres] at hmem
            rw [hid, hmem]
          · rcases hfe : fetch link with _ | content
            · simp [download_and_save_subtitle, hgf, hid, hres, hfe] at hmem
              rw [hid, hmem]
            · cases w <;>
                simp [download_and_save_subtitle, hgf, hid, hres, hfe] at hmem <;>
                rw [hid, hmem]
  · intro sub' f0 rest rest' hf hf'
    simp only [download_and_save_subtitle, hf, hf']

def envNoop : Nat → Option String := fun _ => none

def fetchNone : String → Option String := fun _ => none

theorem download_uses_first_descriptor_only_witness :
    download_and_save_subtitle recNoAttrs resolveNone fetchNone .success (some "old")
        = (.invalidFileId, some "old", []) ∧
    download_and_save_subtitle recOneFile resolveNone fetchNone .success (some "old")
        = (.resolveError, some "old", [.resolveReq 42]) ∧
    (∃ f0 rest, getFiles recOneFile = some (f0 :: rest) ∧ f0.file_id = some 42) ∧
    download_and_save_subtitle recOneFile resolveToL fetchHello .success (some "old")
      = download_and_save_subtitle recTwoFiles resolveToL fetchHello .success (some "old") :=
  ⟨((download_uses_first_descriptor_only recNoAttrs resolveNone fetchNone .success
      (some "old")).1 (Or.inl rfl)).1,
   ((download_uses_first_descriptor_only recOneFile resolveNone fetchNone .success
      (some "old")).2.1 ⟨some 42⟩ [] 42 rfl rfl rfl).1,
   (download_uses_first_descriptor_only recOneFile resolveNone fetchNone .success
      (some "old")).2.2.1 42 (by decide),
   (download_uses_first_descriptor_only recOneFile resolveToL fetchHello .success
      (some "old")).2.2.2 recTwoFiles ⟨some 42⟩ [] [⟨some 99⟩] rfl rfl⟩

/-! ## Claim C9 -/

/-- Module-level behavior of `src/pysubs.py` exactly as written.  The
only top-level statements of the file are the imports (lines 1-9),
three constant assignments (lines 16-18) and the definition of
`setup_logging` (line 21).  Lines 30-216 — `has_external_subtitles`,
`has_embedded_subtitles`, `generate_opensubtitles_hash`,
`search_subtitles`, `get_best_subtitle`, `download_and_save_subtitle`,
`main`, *and the `if __name__ == "__main__": main()` guard* — are all
indented four spaces and therefore live inside the body of
`setup_logging`, which nothing ever calls.  Consequently a process
invocation of the script defines one function, runs nothing else, and
exits with code 0 for every argument vector and environment: whether
the API credential is present and whether the input video file exists
cannot influence the exit code. -/
def pysubs_process_exit (_apiKeyPresent : Bool) (_videoFileExists : Bool) : Nat := 0

/-- **C9 fails on the code:** the claim requires exit code 1 when the
credential is missing or the video file does not exist, but as written
the script always exits 0 (the exit-code logic of `main` is dead
code nested inside `setup_logging`). -/
theorem module_always_exits_zero :
    (∀ apiKeyPresent videoFileExists,
      pysubs_process_exit apiKeyPresent videoFileExists = 0) ∧
    pysubs_process_exit false false ≠ 1 :=
  ⟨fun _ _ => rfl, by decide⟩

end PySubs
